import Mathlib

/-!
Verification of the version-gated compatibility resolver of `mx_compat.py`.

The development shallowly embeds the compatibility machinery:
* `VersionSpec` and its ordering (the class lives in `mx.py`, outside the
  sources at hand, so it is modelled from the spec: dotted numeric versions
  compared component-wise, shorter sequences padded with trailing zeros);
* the 28 `MxCompatibility*` profile classes as records, inheritance being
  record update;
* `flattenClassTree`, `_ensureCompatLoaded`, `minVersion` and
  `getMxCompatibility` as explicit state-passing functions over the module
  level `_versionsMap` table, with Python `assert` failures and exceptions
  rendered as `Except` errors.
-/

namespace MxCompat

/-- Modelled from the spec: `mx.VersionSpec` (defined in `mx.py`, which is not
among the given sources) is an ordered sequence of non-negative integer
components parsed from a dotted string.  We represent the component list
directly. -/
structure VersionSpec where
  parts : List Nat
deriving DecidableEq, Repr

/-- Shorthand constructor for version literals. -/
def ver (l : List Nat) : VersionSpec := ⟨l⟩

/-- Three-way comparison of natural numbers. -/
def ncmp (x y : Nat) : Ordering :=
  if x < y then .lt else if y < x then .gt else .eq

/-- Sequential composition of comparison results. -/
def othen (x y : Ordering) : Ordering :=
  match x with
  | .eq => y
  | _ => x

/-- Reversal of a comparison result. -/
def oswap (x : Ordering) : Ordering :=
  match x with
  | .lt => .gt
  | .eq => .eq
  | .gt => .lt

/-- Modelled from the spec: comparison of the empty component list against a
list, treating missing components as zero. -/
def vcmpNil : List Nat → Ordering
  | [] => .eq
  | b :: bs => othen (ncmp 0 b) (vcmpNil bs)

/-- Modelled from the spec: lexicographic component-wise comparison of two
component lists, the shorter one conceptually padded with trailing zeros. -/
def vcmp : List Nat → List Nat → Ordering
  | [], bs => vcmpNil bs
  | a :: as, [] => othen (ncmp a 0) (vcmp as [])
  | a :: as, b :: bs => othen (ncmp a b) (vcmp as bs)

/-- `VersionSpec.__lt__`. -/
def vlt (a b : VersionSpec) : Bool := decide (vcmp a.parts b.parts = Ordering.lt)

/-- `VersionSpec.__le__`. -/
def vle (a b : VersionSpec) : Bool := decide (vcmp a.parts b.parts ≠ Ordering.gt)

theorem othen_eq_lt {x y : Ordering} :
    othen x y = .lt ↔ x = .lt ∨ (x = .eq ∧ y = .lt) := by
  cases x <;> cases y <;> decide

theorem ncmp_lt {x y : Nat} : ncmp x y = .lt ↔ x < y := by
  unfold ncmp
  split
  · simp [*]
  · split <;> (simp; omega)

theorem ncmp_eq {x y : Nat} : ncmp x y = .eq ↔ x = y := by
  unfold ncmp
  split
  · simp; omega
  · split <;> (simp; omega)

theorem ncmp_swap (x y : Nat) : ncmp y x = oswap (ncmp x y) := by
  unfold ncmp oswap
  by_cases h1 : x < y <;> by_cases h2 : y < x <;> (simp [h1, h2]; try omega)

theorem oswap_othen (x y : Ordering) :
    oswap (othen x y) = othen (oswap x) (oswap y) := by
  cases x <;> cases y <;> rfl

theorem vcmp_view (l m : List Nat) :
    vcmp l m = othen (ncmp (l.headD 0) (m.headD 0)) (vcmp l.tail m.tail) := by
  cases l <;> cases m <;> rfl

theorem vcmp_refl (l : List Nat) : vcmp l l = .eq := by
  induction l with
  | nil => rfl
  | cons a as ih =>
    show othen (ncmp a a) (vcmp as as) = .eq
    rw [ih, ncmp_eq.mpr rfl]
    rfl

theorem vcmp_swap_aux : ∀ n l m, l.length + m.length ≤ n →
    vcmp m l = oswap (vcmp l m) := by
  intro n
  induction n with
  | zero =>
    intro l m hlen
    have hl : l = [] := List.length_eq_zero.mp (by omega)
    have hm : m = [] := List.length_eq_zero.mp (by omega)
    subst hl; subst hm; rfl
  | succ n ih =>
    intro l m hlen
    by_cases hboth : l = [] ∧ m = []
    · obtain ⟨hl, hm⟩ := hboth; subst hl; subst hm; rfl
    · have hpos : 1 ≤ l.length + m.length := by
        rcases l with _ | ⟨a, as⟩
        · rcases m with _ | ⟨b, bs⟩
          · exact absurd ⟨rfl, rfl⟩ hboth
          · simp
        · simp; omega
      rw [vcmp_view l m, vcmp_view m l]
      rw [oswap_othen, ← ncmp_swap]
      rw [ih l.tail m.tail (by
        have h1 : l.tail.length = l.length - 1 := by
          cases l <;> simp
        have h2 : m.tail.length = m.length - 1 := by
          cases m <;> simp
        omega)]

theorem vcmp_swap (l m : List Nat) : vcmp m l = oswap (vcmp l m) :=
  vcmp_swap_aux (l.length + m.length) l m le_rfl

theorem vcmp_trans_lt_aux : ∀ n a b c, a.length + b.length + c.length ≤ n →
    vcmp a b = .lt → vcmp b c = .lt → vcmp a c = .lt := by
  intro n
  induction n with
  | zero =>
    intro a b c hlen h1 _
    have ha : a = [] := List.length_eq_zero.mp (by omega)
    have hb : b = [] := List.length_eq_zero.mp (by omega)
    subst ha; subst hb
    exact absurd h1 (by decide)
  | succ n ih =>
    intro a b c hlen h1 h2
    by_cases hall : a = [] ∧ b = [] ∧ c = []
    · obtain ⟨ha, hb, _⟩ := hall; subst ha; subst hb
      exact absurd h1 (by decide)
    · have hpos : 1 ≤ a.length + b.length + c.length := by
        rcases a with _ | ⟨x, xs⟩
        · rcases b with _ | ⟨y, ys⟩
          · rcases c with _ | ⟨z, zs⟩
            · exact absurd ⟨rfl, rfl, rfl⟩ hall
            · simp
          · simp; omega
        · simp; omega
      rw [vcmp_view a b] at h1
      rw [vcmp_view b c] at h2
      rw [vcmp_view a c]
      rcases othen_eq_lt.mp h1 with hx | ⟨hx, hxt⟩ <;>
        rcases othen_eq_lt.mp h2 with hy | ⟨hy, hyt⟩
      · exact othen_eq_lt.mpr (Or.inl (ncmp_lt.mpr
          (lt_trans (ncmp_lt.mp hx) (ncmp_lt.mp hy))))
      · exact othen_eq_lt.mpr (Or.inl (ncmp_lt.mpr
          (ncmp_eq.mp hy ▸ ncmp_lt.mp hx)))
      · exact othen_eq_lt.mpr (Or.inl (ncmp_lt.mpr
          (ncmp_eq.mp hx ▸ ncmp_lt.mp hy)))
      · refine othen_eq_lt.mpr (Or.inr ⟨ncmp_eq.mpr ?_, ?_⟩)
        · rw [ncmp_eq.mp hx, ncmp_eq.mp hy]
        · refine ih a.tail b.tail c.tail ?_ hxt hyt
          have h1 : a.tail.length = a.length - 1 := by cases a <;> simp
          have h2 : b.tail.length = b.length - 1 := by cases b <;> simp
          have h3 : c.tail.length = c.length - 1 := by cases c <;> simp
          omega

theorem vcmp_trans_lt {a b c : List Nat} (h1 : vcmp a b = .lt)
    (h2 : vcmp b c = .lt) : vcmp a c = .lt :=
  vcmp_trans_lt_aux (a.length + b.length + c.length) a b c le_rfl h1 h2

theorem vlt_iff {a b : VersionSpec} :
    vlt a b = true ↔ vcmp a.parts b.parts = .lt := by
  rw [vlt, decide_eq_true_iff]

theorem vlt_trans {a b c : VersionSpec} (h1 : vlt a b = true)
    (h2 : vlt b c = true) : vlt a c = true :=
  vlt_iff.mpr (vcmp_trans_lt (vlt_iff.mp h1) (vlt_iff.mp h2))

theorem vlt_irrefl (a : VersionSpec) : vlt a a = false := by
  simp [vlt, vcmp_refl]

theorem vle_iff_not_vlt {a b : VersionSpec} :
    vle a b = true ↔ vlt b a = false := by
  rw [vle, vlt, decide_eq_true_iff, decide_eq_false_iff_not,
    vcmp_swap b.parts a.parts]
  cases h : vcmp b.parts a.parts <;> simp [h, oswap]

theorem vle_refl (a : VersionSpec) : vle a a = true := by
  simp [vle, vcmp_refl]

theorem vle_of_vlt {a b : VersionSpec} (h : vlt a b = true) : vle a b = true := by
  rw [vlt_iff] at h
  simp [vle, h]

theorem vne_of_vlt {a b : VersionSpec} (h : vlt a b = true) : a ≠ b := by
  intro hc
  subst hc
  rw [vlt_irrefl] at h
  cases h

/-- Strict ascending order of a list of versions: each entry compares strictly
below its successor (the chain shape checked by `_ensureCompatLoaded`). -/
def strictSorted : List VersionSpec → Bool
  | [] => true
  | [_] => true
  | a :: b :: rest => vlt a b && strictSorted (b :: rest)

theorem strictSorted_tail {a : VersionSpec} {l : List VersionSpec}
    (h : strictSorted (a :: l) = true) : strictSorted l = true := by
  cases l with
  | nil => rfl
  | cons b rest =>
    have := (Bool.and_eq_true _ _).mp h
    exact this.2

theorem strictSorted_head {a : VersionSpec} {l : List VersionSpec}
    (h : strictSorted (a :: l) = true) : ∀ b ∈ l, vlt a b = true := by
  induction l generalizing a with
  | nil => intro b hb; cases hb
  | cons c rest ih =>
    intro b hb
    have hac : vlt a c = true := ((Bool.and_eq_true _ _).mp h).1
    have hrest : strictSorted (c :: rest) = true := ((Bool.and_eq_true _ _).mp h).2
    rcases List.mem_cons.mp hb with hbc | hbr
    · subst hbc; exact hac
    · exact vlt_trans hac (ih hrest b hbr)

theorem strictSorted_getD {l : List VersionSpec}
    (h : strictSorted l = true) :
    ∀ i j, i < j → j < l.length →
      vlt (l.getD i (ver [])) (l.getD j (ver [])) = true := by
  induction l with
  | nil => intro i j _ hj; simp at hj
  | cons a rest ih =>
    intro i j hij hj
    cases i with
    | zero =>
      cases j with
      | zero => omega
      | succ j' =>
        have hjlen : j' < rest.length := by simpa using hj
        have hmem : rest.getD j' (ver []) ∈ rest := by
          rw [List.getD_eq_getElem _ _ hjlen]
          exact List.getElem_mem hjlen
        simpa using strictSorted_head h _ hmem
    | succ i' =>
      cases j with
      | zero => omega
      | succ j' =>
        have := ih (strictSorted_tail h) i' j' (by omega) (by simpa using hj)
        simpa using this

/-- `os.path.join(a, b)` for the single two-component use in
`MxCompatibility555.getSuiteOutputRoot`. -/
def pathJoin (a b : String) : String := a ++ "/" ++ b

/-- The capability profile exposed by the `MxCompatibility*` classes: one field
per accessor method of `MxCompatibility500` (`mx_compat.py`, lines 34-189).
Python method overriding along the single-inheritance chain is embedded as
record update, so a field that a subclass does not override keeps the value of
the nearest ancestor that set it.  `getSuiteOutputRoot` maps `suite.dir` to the
output root. -/
structure MxCompatibility where
  version : VersionSpec
  supportsLicenses : Bool
  licenseAttribute : String
  licensesAttribute : String
  defaultLicenseAttribute : String
  supportedMavenMetadata : List String
  supportsRepositories : Bool
  newestInputIsTimeStampFile : Bool
  getSuiteOutputRoot : String → String
  mavenDeployJavadoc : Bool
  mavenSupportsClassifier : Bool
  checkstyleVersion : String
  checkDependencyJavaCompliance : Bool
  improvedImportMatching : Bool
  verifySincePresent : List String
  moduleDepsEqualDistDeps : Bool
  useDistsForUnittest : Bool
  excludeDisableJavaDebuggging : Bool
  makePylintVCInputsAbsolute : Bool
  disableImportOfTestProjects : Bool
  useJobsForMakeByDefault : Bool
  overwriteProjectAttributes : Bool
  requireJsonifiableSuite : Bool
  supportSuiteImportGitBref : Bool
  enforceTestDistributions : Bool
  deprecateIsTestProject : Bool
  filterFindbugsProjectsByJavaCompliance : Bool
  addVersionSuffixToExplicitVersion : Bool
  jarsUseJDKDiscriminant : Bool
  check_package_locations : Bool
  check_checkstyle_config : Bool
  verify_multirelease_projects : Bool
  spotbugs_version : String

/-- `MxCompatibility500` (`mx_compat.py` lines 34-189): the root profile, every
flag at its hard-coded default. -/
def mxCompatibility500 : MxCompatibility where
  version := ver [5, 0, 0]
  supportsLicenses := false
  licenseAttribute := "licence"
  licensesAttribute := "licences"
  defaultLicenseAttribute := "defaultLicence"
  supportedMavenMetadata := []
  supportsRepositories := false
  newestInputIsTimeStampFile := false
  getSuiteOutputRoot := fun dir => dir
  mavenDeployJavadoc := false
  mavenSupportsClassifier := false
  checkstyleVersion := "6.0"
  checkDependencyJavaCompliance := false
  improvedImportMatching := false
  verifySincePresent := []
  moduleDepsEqualDistDeps := false
  useDistsForUnittest := false
  excludeDisableJavaDebuggging := false
  makePylintVCInputsAbsolute := false
  disableImportOfTestProjects := false
  useJobsForMakeByDefault := false
  overwriteProjectAttributes := true
  requireJsonifiableSuite := false
  supportSuiteImportGitBref := true
  enforceTestDistributions := false
  deprecateIsTestProject := false
  filterFindbugsProjectsByJavaCompliance := false
  addVersionSuffixToExplicitVersion := false
  jarsUseJDKDiscriminant := false
  check_package_locations := false
  check_checkstyle_config := false
  verify_multirelease_projects := false
  spotbugs_version := "3.0.0"

/-- `MxCompatibility520`. -/
def mxCompatibility520 : MxCompatibility :=
  { mxCompatibility500 with
    version := ver [5, 2, 0]
    supportsLicenses := true
    supportedMavenMetadata :=
      ["library-coordinates", "suite-url", "suite-developer", "dist-description"] }

/-- `MxCompatibility521`. -/
def mxCompatibility521 : MxCompatibility :=
  { mxCompatibility520 with
    version := ver [5, 2, 1]
    supportsRepositories := true }

/-- `MxCompatibility522`. -/
def mxCompatibility522 : MxCompatibility :=
  { mxCompatibility521 with
    version := ver [5, 2, 2]
    licenseAttribute := "license"
    licensesAttribute := "licenses"
    defaultLicenseAttribute := "defaultLicense" }

/-- `MxCompatibility533`. -/
def mxCompatibility533 : MxCompatibility :=
  { mxCompatibility522 with
    version := ver [5, 3, 3]
    newestInputIsTimeStampFile := true }

/-- `MxCompatibility555`. -/
def mxCompatibility555 : MxCompatibility :=
  { mxCompatibility533 with
    version := ver [5, 5, 5]
    getSuiteOutputRoot := fun dir => pathJoin dir "mxbuild" }

/-- `MxCompatibility566`. -/
def mxCompatibility566 : MxCompatibility :=
  { mxCompatibility555 with
    version := ver [5, 6, 6]
    mavenDeployJavadoc := true }

/-- `MxCompatibility5616`. -/
def mxCompatibility5616 : MxCompatibility :=
  { mxCompatibility566 with
    version := ver [5, 6, 16]
    checkstyleVersion := "6.15" }

/-- `MxCompatibility59`. -/
def mxCompatibility59 : MxCompatibility :=
  { mxCompatibility5616 with
    version := ver [5, 9, 0]
    verifySincePresent := ["-verifysincepresent"] }

/-- `MxCompatibility5200`. -/
def mxCompatibility5200 : MxCompatibility :=
  { mxCompatibility59 with
    version := ver [5, 20, 0]
    checkDependencyJavaCompliance := true
    improvedImportMatching := true }

/-- `MxCompatibility5344`. -/
def mxCompatibility5344 : MxCompatibility :=
  { mxCompatibility5200 with
    version := ver [5, 34, 4]
    moduleDepsEqualDistDeps := true }

/-- `MxCompatibility5590`. -/
def mxCompatibility5590 : MxCompatibility :=
  { mxCompatibility5344 with
    version := ver [5, 59, 0]
    useDistsForUnittest := true }

/-- `MxCompatibility5680`. -/
def mxCompatibility5680 : MxCompatibility :=
  { mxCompatibility5590 with
    version := ver [5, 68, 0]
    excludeDisableJavaDebuggging := true }

/-- `MxCompatibility51104`. -/
def mxCompatibility51104 : MxCompatibility :=
  { mxCompatibility5680 with
    version := ver [5, 110, 4]
    makePylintVCInputsAbsolute := true }

/-- `MxCompatibility51120` (its declared version is 5.113.0). -/
def mxCompatibility51120 : MxCompatibility :=
  { mxCompatibility51104 with
    version := ver [5, 113, 0]
    disableImportOfTestProjects := true }

/-- `MxCompatibility51150`. -/
def mxCompatibility51150 : MxCompatibility :=
  { mxCompatibility51120 with
    version := ver [5, 115, 0]
    useJobsForMakeByDefault := true }

/-- `MxCompatibility51247`. -/
def mxCompatibility51247 : MxCompatibility :=
  { mxCompatibility51150 with
    version := ver [5, 124, 7]
    overwriteProjectAttributes := false }

/-- `MxCompatibility51330`. -/
def mxCompatibility51330 : MxCompatibility :=
  { mxCompatibility51247 with
    version := ver [5, 133, 0]
    requireJsonifiableSuite := true }

/-- `MxCompatibility51380`. -/
def mxCompatibility51380 : MxCompatibility :=
  { mxCompatibility51330 with
    version := ver [5, 138, 0]
    supportSuiteImportGitBref := false }

/-- `MxCompatibility51400`. -/
def mxCompatibility51400 : MxCompatibility :=
  { mxCompatibility51380 with
    version := ver [5, 140, 0]
    enforceTestDistributions := true
    deprecateIsTestProject := true }

/-- `MxCompatibility51492`. -/
def mxCompatibility51492 : MxCompatibility :=
  { mxCompatibility51400 with
    version := ver [5, 149, 2]
    filterFindbugsProjectsByJavaCompliance := true }

/-- `MxCompatibility51760`. -/
def mxCompatibility51760 : MxCompatibility :=
  { mxCompatibility51492 with
    version := ver [5, 176, 0]
    addVersionSuffixToExplicitVersion := true }

/-- `MxCompatibility5181`. -/
def mxCompatibility5181 : MxCompatibility :=
  { mxCompatibility51760 with
    version := ver [5, 181, 0]
    jarsUseJDKDiscriminant := true }

/-- `MxCompatibility5194`. -/
def mxCompatibility5194 : MxCompatibility :=
  { mxCompatibility5181 with
    version := ver [5, 194, 0]
    check_package_locations := true }

/-- `MxCompatibility51950`. -/
def mxCompatibility51950 : MxCompatibility :=
  { mxCompatibility5194 with
    version := ver [5, 195, 0]
    mavenSupportsClassifier := true }

/-- `MxCompatibility51951`. -/
def mxCompatibility51951 : MxCompatibility :=
  { mxCompatibility51950 with
    version := ver [5, 195, 1]
    check_checkstyle_config := true }

/-- `MxCompatibility52061`. -/
def mxCompatibility52061 : MxCompatibility :=
  { mxCompatibility51951 with
    version := ver [5, 206, 1]
    verify_multirelease_projects := true }

/-- `MxCompatibility52102`. -/
def mxCompatibility52102 : MxCompatibility :=
  { mxCompatibility52061 with
    version := ver [5, 210, 2]
    spotbugs_version := "3.1.11" }

/-- Failure modes of the chain machinery.  Python signals them as `assert`
failures or exceptions; each constructor records the values in scope at the
failing program point.  `nonMonotonicVersion` carries the two offending
versions compared by the assertion `previousVersion < clazz.version()`
(`mx_compat.py` line 462); the three `assert*` constructors are the assertions
inside `flattenClassTree` (lines 442-447); `unsupportedVersion` is the
spec-modelled error raised by callers when `getMxCompatibility` returns no
profile. -/
inductive MxError where
  | nonMonotonicVersion (prev cur : VersionSpec)
  | assertRootIsType
  | assertTreeLen
  | assertRestIsList
  | indexError
  | keyError
  | unsupportedVersion (requested minSupported : VersionSpec)
deriving Repr

/-- A Python class object as seen by `_ensureCompatLoaded`: either the `object`
base class (skipped by the build loop) or one of the `MxCompatibility*`
classes, identified with the instance `clazz()` it constructs (each class has
no per-instance state, and `clazz.version()` is the `version` field). -/
inductive PyClass where
  | object
  | compat (p : MxCompatibility)

/-- The nested-list shape returned by `inspect.getclasstree`: a tree level is a
(possibly empty) sequence whose items are either `(class, bases)` tuples
(`consCls`) or nested sub-lists of subclasses (`consSub`).  This is the input
type of `flattenClassTree`. -/
inductive ClassTree where
  | nil
  | consCls (c : PyClass) (rest : ClassTree)
  | consSub (s : ClassTree) (rest : ClassTree)

/-- `flattenClassTree` (`mx_compat.py` lines 440-449).  `tree[0][0]` on an
empty level raises an IndexError; `assert isinstance(root, type)` fails when
the first item of a level is a nested list; `assert len(tree) == 2` fails on a
level of three or more items; `assert isinstance(rest, list)` fails when the
second item is a tuple rather than a nested list. -/
def flattenClassTree : ClassTree → Except MxError (List PyClass)
  | .nil => .error .indexError
  | .consSub _ _ => .error .assertRootIsType
  | .consCls c .nil => .ok [c]
  | .consCls c (.consSub s .nil) => (flattenClassTree s).map (fun l => c :: l)
  | .consCls _ (.consCls _ .nil) => .error .assertRestIsList
  | .consCls _ (.consCls _ (.consCls _ _)) => .error .assertTreeLen
  | .consCls _ (.consCls _ (.consSub _ _)) => .error .assertTreeLen
  | .consCls _ (.consSub _ (.consCls _ _)) => .error .assertTreeLen
  | .consCls _ (.consSub _ (.consSub _ _)) => .error .assertTreeLen

/-- The nested tree `inspect.getclasstree` produces for a linear single
inheritance chain: `[(c0, bases), [(c1, (c0,)), [(c2, (c1,)), ...]]]`. -/
def linChain : List PyClass → ClassTree
  | [] => .nil
  | [c] => .consCls c .nil
  | c :: rest => .consCls c (.consSub (linChain rest) .nil)

/-- The 28 `MxCompatibility*` classes of `mx_compat.py` (every class matching
the regex `^MxCompatibility[0-9a-z]*$`), rooted at `object`, in inheritance
order — the order in which `flattenClassTree` yields them. -/
def allMxClasses : List PyClass :=
  [.object,
   .compat mxCompatibility500, .compat mxCompatibility520,
   .compat mxCompatibility521, .compat mxCompatibility522,
   .compat mxCompatibility533, .compat mxCompatibility555,
   .compat mxCompatibility566, .compat mxCompatibility5616,
   .compat mxCompatibility59, .compat mxCompatibility5200,
   .compat mxCompatibility5344, .compat mxCompatibility5590,
   .compat mxCompatibility5680, .compat mxCompatibility51104,
   .compat mxCompatibility51120, .compat mxCompatibility51150,
   .compat mxCompatibility51247, .compat mxCompatibility51330,
   .compat mxCompatibility51380, .compat mxCompatibility51400,
   .compat mxCompatibility51492, .compat mxCompatibility51760,
   .compat mxCompatibility5181, .compat mxCompatibility5194,
   .compat mxCompatibility51950, .compat mxCompatibility51951,
   .compat mxCompatibility52061, .compat mxCompatibility52102]

/-- The class tree `inspect.getclasstree` returns for the linear
`MxCompatibility*` hierarchy (modelled: `inspect` is Python library code). -/
def mxClassTree : ClassTree := linChain allMxClasses

/-- The `_versionsMap` table: an insertion-ordered sequence of
(version, profile) pairs, as in the module-level `OrderedDict`. -/
abbrev Table := List (VersionSpec × MxCompatibility)

/-- The build loop of `_ensureCompatLoaded` (`mx_compat.py` lines 458-464):
walk the flattened classes, skip `object`, assert that versions strictly
increase, and record each `(clazz.version(), clazz())` pair in order.  The
`prev` argument is the loop's `previousVersion` (initially `None`). -/
def buildVersionsMap : List PyClass → Option VersionSpec → Except MxError Table
  | [], _ => .ok []
  | .object :: rest, prev => buildVersionsMap rest prev
  | .compat p :: rest, prev =>
    match prev with
    | none =>
      (buildVersionsMap rest (some p.version)).map (fun t => (p.version, p) :: t)
    | some pv =>
      if vlt pv p.version then
        (buildVersionsMap rest (some p.version)).map (fun t => (p.version, p) :: t)
      else .error (.nonMonotonicVersion pv p.version)

/-- `_ensureCompatLoaded` (`mx_compat.py` lines 437-464) as a state
transformer on `_versionsMap`: build the table if it is empty, otherwise keep
it.  A failing assertion aborts the caller, rendered as `Except.error`. -/
def ensureCompatLoaded (m : Table) : Except MxError Table :=
  if m.isEmpty then
    match flattenClassTree mxClassTree with
    | .error e => .error e
    | .ok classes => buildVersionsMap classes none
  else .ok m

/-- `minVersion` (`mx_compat.py` lines 424-426): ensure the table is loaded
and return its first key (`list(_versionsMap)[0]`), threading the table
state. -/
def minVersionS (m : Table) : Except MxError (VersionSpec × Table) :=
  match ensureCompatLoaded m with
  | .error e => .error e
  | .ok m2 =>
    match m2.get? 0 with
    | none => .error .indexError
    | some e => .ok (e.1, m2)

/-- Python list indexing `l[i]`: negative indices address from the end; out of
range raises IndexError (`none`). -/
def pyIndex (l : List α) (i : Int) : Option α :=
  if i < 0 then
    if i + l.length < 0 then none else l.get? (i + l.length).toNat
  else l.get? i.toNat

/-- The loop of `bisect.bisect_right(a, x, lo, hi)` with explicit fuel; each
iteration shrinks `hi - lo`, so any `fuel > hi - lo` computes the loop's
result. -/
def bisectGo (keys : List VersionSpec) (v : VersionSpec) :
    Nat → Nat → Nat → Nat
  | 0, lo, _ => lo
  | fuel + 1, lo, hi =>
    if lo < hi then
      if vlt v (keys.getD ((lo + hi) / 2) (ver [])) then
        bisectGo keys v fuel lo ((lo + hi) / 2)
      else bisectGo keys v fuel ((lo + hi) / 2 + 1) hi
    else lo

/-- `bisect.bisect_right(keys, version)` with the default bounds `lo = 0`,
`hi = len(keys)`. -/
def bisectRight (keys : List VersionSpec) (v : VersionSpec) : Nat :=
  bisectGo keys v (keys.length + 1) 0 keys.length

/-- `getMxCompatibility` (`mx_compat.py` lines 428-433) as a state
transformer: versions below the minimum yield `None` (the no-result sentinel);
otherwise the entry at `keys[bisect.bisect_right(keys, version) - 1]` is
looked up in the table by key equality. -/
def getMxCompatibilityS (v : VersionSpec) (m : Table) :
    Except MxError (Option MxCompatibility × Table) :=
  match minVersionS m with
  | .error e => .error e
  | .ok (minV, m2) =>
    if vlt v minV then .ok (none, m2)
    else
      match pyIndex (m2.map Prod.fst) ((bisectRight (m2.map Prod.fst) v : Int) - 1) with
      | none => .error .indexError
      | some k =>
        match m2.find? (fun e => decide (e.1 = k)) with
        | none => .error .keyError
        | some e => .ok (some e.2, m2)

/-- Modelled from the spec: callers of `getMxCompatibility` (in `mx.py`, not
among the given sources) report an `UnsupportedVersion` failure carrying both
the requested and the minimum supported version when resolution returns the
`None` sentinel. -/
def resolveCompat (v : VersionSpec) (m : Table) :
    Except MxError (MxCompatibility × Table) :=
  match getMxCompatibilityS v m with
  | .error e => .error e
  | .ok (some p, m2) => .ok (p, m2)
  | .ok (none, m2) =>
    match minVersionS m2 with
    | .error e => .error e
    | .ok (mv, _) => .error (.unsupportedVersion v mv)

/-- The table `_ensureCompatLoaded` builds for the hardcoded chain. -/
def theTable : Table :=
  [(ver [5, 0, 0], mxCompatibility500),
   (ver [5, 2, 0], mxCompatibility520),
   (ver [5, 2, 1], mxCompatibility521),
   (ver [5, 2, 2], mxCompatibility522),
   (ver [5, 3, 3], mxCompatibility533),
   (ver [5, 5, 5], mxCompatibility555),
   (ver [5, 6, 6], mxCompatibility566),
   (ver [5, 6, 16], mxCompatibility5616),
   (ver [5, 9, 0], mxCompatibility59),
   (ver [5, 20, 0], mxCompatibility5200),
   (ver [5, 34, 4], mxCompatibility5344),
   (ver [5, 59, 0], mxCompatibility5590),
   (ver [5, 68, 0], mxCompatibility5680),
   (ver [5, 110, 4], mxCompatibility51104),
   (ver [5, 113, 0], mxCompatibility51120),
   (ver [5, 115, 0], mxCompatibility51150),
   (ver [5, 124, 7], mxCompatibility51247),
   (ver [5, 133, 0], mxCompatibility51330),
   (ver [5, 138, 0], mxCompatibility51380),
   (ver [5, 140, 0], mxCompatibility51400),
   (ver [5, 149, 2], mxCompatibility51492),
   (ver [5, 176, 0], mxCompatibility51760),
   (ver [5, 181, 0], mxCompatibility5181),
   (ver [5, 194, 0], mxCompatibility5194),
   (ver [5, 195, 0], mxCompatibility51950),
   (ver [5, 195, 1], mxCompatibility51951),
   (ver [5, 206, 1], mxCompatibility52061),
   (ver [5, 210, 2], mxCompatibility52102)]

/-- The key sequence of `theTable`. -/
def theKeys : List VersionSpec := theTable.map Prod.fst

/-- The versions declared by a class sequence, in order (`object` carries
none). -/
def chainVersions (cs : List PyClass) : List VersionSpec :=
  cs.filterMap (fun c => match c with
    | .object => none
    | .compat p => some p.version)

/-- Number of class entries (direct children of the parent node) in one level
of a class tree. -/
def clsCount : ClassTree → Nat
  | .nil => 0
  | .consCls _ rest => clsCount rest + 1
  | .consSub _ rest => clsCount rest

/-- A class tree declares a branching ancestry: some level — the top one or a
nested one — holds two or more class entries, i.e. some node has more than one
direct child. -/
inductive HasBranch : ClassTree → Prop where
  | here (t : ClassTree) : 2 ≤ clsCount t → HasBranch t
  | inSub (s rest : ClassTree) : HasBranch s → HasBranch (.consSub s rest)
  | inTailCls (c : PyClass) (rest : ClassTree) :
      HasBranch rest → HasBranch (.consCls c rest)
  | inTailSub (s rest : ClassTree) :
      HasBranch rest → HasBranch (.consSub s rest)

theorem exceptMap_ok {e : Except MxError Table} {f : Table → Table} {t : Table}
    (h : e.map f = .ok t) : ∃ t', e = .ok t' ∧ t = f t' := by
  cases e with
  | error err => simp [Except.map] at h
  | ok t' =>
    refine ⟨t', rfl, ?_⟩
    simp [Except.map] at h
    exact h.symm

theorem mono_of_sorted {keys : List VersionSpec} (hs : strictSorted keys = true)
    (v : VersionSpec) : ∀ i j, i ≤ j → j < keys.length →
      vlt v (keys.getD i (ver [])) = true → vlt v (keys.getD j (ver [])) = true := by
  intro i j hij hj hp
  rcases Nat.eq_or_lt_of_le hij with he | hl
  · subst he; exact hp
  · exact vlt_trans hp (strictSorted_getD hs i j hl hj)

theorem bisectGo_spec (keys : List VersionSpec) (v : VersionSpec)
    (hmono : ∀ i j, i ≤ j → j < keys.length →
      vlt v (keys.getD i (ver [])) = true → vlt v (keys.getD j (ver [])) = true) :
    ∀ fuel lo hi, lo ≤ hi → hi ≤ keys.length → hi - lo < fuel →
      (∀ i, i < lo → vlt v (keys.getD i (ver [])) = false) →
      (∀ i, hi ≤ i → i < keys.length → vlt v (keys.getD i (ver [])) = true) →
      lo ≤ bisectGo keys v fuel lo hi ∧ bisectGo keys v fuel lo hi ≤ hi ∧
      (∀ i, i < bisectGo keys v fuel lo hi →
        vlt v (keys.getD i (ver [])) = false) ∧
      (∀ i, bisectGo keys v fuel lo hi ≤ i → i < keys.length →
        vlt v (keys.getD i (ver [])) = true) := by
  intro fuel
  induction fuel with
  | zero => intro lo hi _ _ h3 _ _; omega
  | succ fuel ih =>
    intro lo hi hlohi hhi hfuel hlow hhigh
    have hunfold : bisectGo keys v (fuel + 1) lo hi =
        if lo < hi then
          if vlt v (keys.getD ((lo + hi) / 2) (ver [])) then
            bisectGo keys v fuel lo ((lo + hi) / 2)
          else bisectGo keys v fuel ((lo + hi) / 2 + 1) hi
        else lo := rfl
    by_cases hlt : lo < hi
    · have hmid1 : lo ≤ (lo + hi) / 2 := by omega
      have hmid2 : (lo + hi) / 2 < hi := by omega
      by_cases hp : vlt v (keys.getD ((lo + hi) / 2) (ver [])) = true
      · rw [hunfold, if_pos hlt, if_pos hp]
        have hres := ih lo ((lo + hi) / 2) hmid1 (by omega) (by omega) hlow
          (fun i hi1 hi2 => hmono ((lo + hi) / 2) i hi1 hi2 hp)
        exact ⟨hres.1, by omega, hres.2.2.1, hres.2.2.2⟩
      · have hpf : vlt v (keys.getD ((lo + hi) / 2) (ver [])) = false :=
          Bool.not_eq_true _ ▸ hp
        rw [hunfold, if_pos hlt, if_neg hp]
        have hnewlow : ∀ i, i < (lo + hi) / 2 + 1 →
            vlt v (keys.getD i (ver [])) = false := by
          intro i hi1
          by_cases hilo : i < lo
          · exact hlow i hilo
          · by_contra hc
            rw [Bool.not_eq_false] at hc
            have hmid := hmono i ((lo + hi) / 2) (by omega) (by omega) hc
            rw [hpf] at hmid
            exact absurd hmid (by decide)
        have hres := ih ((lo + hi) / 2 + 1) hi (by omega) hhi (by omega)
          hnewlow hhigh
        exact ⟨by omega, hres.2.1, hres.2.2.1, hres.2.2.2⟩
    · rw [hunfold, if_neg hlt]
      refine ⟨le_rfl, hlohi, hlow, ?_⟩
      intro i h1 h2
      exact hhigh i (by omega) h2

theorem bisectRight_spec (keys : List VersionSpec) (v : VersionSpec)
    (hs : strictSorted keys = true) :
    bisectRight keys v ≤ keys.length ∧
    (∀ i, i < bisectRight keys v → vlt v (keys.getD i (ver [])) = false) ∧
    (∀ i, bisectRight keys v ≤ i → i < keys.length →
      vlt v (keys.getD i (ver [])) = true) := by
  have hres := bisectGo_spec keys v (mono_of_sorted hs v) (keys.length + 1)
    0 keys.length (by omega) le_rfl (by omega)
    (fun i hi => absurd hi (by omega))
    (fun i h1 h2 => absurd h1 (by omega))
  exact ⟨hres.2.1, hres.2.2.1, hres.2.2.2⟩

theorem find_eq_get : ∀ (t : Table) (i : Nat) (hi : i < t.length),
    (∀ j (hj : j < t.length), j < i → (t.get ⟨j, hj⟩).1 ≠ (t.get ⟨i, hi⟩).1) →
    t.find? (fun e => decide (e.1 = (t.get ⟨i, hi⟩).1)) = some (t.get ⟨i, hi⟩) := by
  intro t
  induction t with
  | nil => intro i hi; simp at hi
  | cons a rest ih =>
    intro i hi hdis
    cases i with
    | zero => simp [List.find?]
    | succ i' =>
      have hi' : i' < rest.length := by simpa using hi
      have hne : a.1 ≠ ((a :: rest).get ⟨i' + 1, hi⟩).1 :=
        hdis 0 (by simp) (by omega)
      have hpa : decide (a.1 = ((a :: rest).get ⟨i' + 1, hi⟩).1) = false := by
        simpa using hne
      rw [List.find?_cons, hpa]
      have hshift : ∀ j (hj : j < rest.length), j < i' →
          (rest.get ⟨j, hj⟩).1 ≠ (rest.get ⟨i', hi'⟩).1 := by
        intro j hj hji
        have := hdis (j + 1) (by simpa using hj) (by omega)
        simpa using this
      have := ih i' hi' hshift
      simpa using this

theorem ensure_of_ne_nil {t : Table} (h : t ≠ []) :
    ensureCompatLoaded t = .ok t := by
  obtain ⟨hd, tl, rfl⟩ := List.exists_cons_of_ne_nil h
  rfl

theorem minVersionS_of_ne_nil {t : Table} (h : t ≠ []) :
    ∃ e0, t.get? 0 = some e0 ∧ minVersionS t = .ok (e0.1, t) := by
  obtain ⟨hd, tl, rfl⟩ := List.exists_cons_of_ne_nil h
  exact ⟨hd, rfl, rfl⟩

theorem getMx_char (t : Table) (v : VersionSpec) (hne : t ≠ [])
    (hs : strictSorted (t.map Prod.fst) = true)
    (h0 : vlt v ((t.map Prod.fst).getD 0 (ver [])) = false) :
    1 ≤ bisectRight (t.map Prod.fst) v ∧
    bisectRight (t.map Prod.fst) v ≤ t.length ∧
    (∀ i, i < bisectRight (t.map Prod.fst) v →
      vlt v ((t.map Prod.fst).getD i (ver [])) = false) ∧
    (∀ i, bisectRight (t.map Prod.fst) v ≤ i → i < t.length →
      vlt v ((t.map Prod.fst).getD i (ver [])) = true) ∧
    ∃ (h : bisectRight (t.map Prod.fst) v - 1 < t.length),
      getMxCompatibilityS v t =
        .ok (some (t.get ⟨bisectRight (t.map Prod.fst) v - 1, h⟩).2, t) := by
  have hlen : (t.map Prod.fst).length = t.length := List.length_map t Prod.fst
  have htpos : 0 < t.length := List.length_pos.mpr hne
  obtain ⟨hble, hblow, hbhigh⟩ := bisectRight_spec (t.map Prod.fst) v hs
  have hr1 : 1 ≤ bisectRight (t.map Prod.fst) v := by
    by_contra hc
    have h00 := hbhigh 0 (by omega) (by omega)
    rw [h0] at h00
    exact absurd h00 (by decide)
  set r := bisectRight (t.map Prod.fst) v with hrdef
  have hrlt : r - 1 < t.length := by omega
  refine ⟨hr1, by omega, hblow, fun i h1 h2 => hbhigh i h1 (by omega), hrlt, ?_⟩
  obtain ⟨e0, he0, hmin⟩ := minVersionS_of_ne_nil hne
  have hguard : vlt v e0.1 = false := by
    have : (t.map Prod.fst).getD 0 (ver []) = e0.1 := by
      obtain ⟨hd, tl, rfl⟩ := List.exists_cons_of_ne_nil hne
      simp at he0
      rw [he0]
      rfl
    rw [this] at h0
    exact h0
  unfold getMxCompatibilityS
  rw [hmin]
  simp only [hguard, Bool.false_eq_true, if_false]
  have hidx : pyIndex (t.map Prod.fst) ((r : Int) - 1) =
      some ((t.map Prod.fst).get ⟨r - 1, by omega⟩) := by
    unfold pyIndex
    rw [if_neg (by omega)]
    have htn : ((r : Int) - 1).toNat = r - 1 := by omega
    rw [htn]
    exact List.get?_eq_get (by omega)
  have hkey : (t.map Prod.fst).get ⟨r - 1, by omega⟩ = (t.get ⟨r - 1, hrlt⟩).1 := by
    simp [List.get_eq_getElem, List.getElem_map]
  have hidx2 : pyIndex (t.map Prod.fst) ((r : Int) - 1) =
      some ((t.get ⟨r - 1, hrlt⟩).1) := by
    rw [hidx, hkey]
  rw [← hrdef, hidx2]
  have hdis : ∀ j (hj : j < t.length), j < r - 1 →
      (t.get ⟨j, hj⟩).1 ≠ (t.get ⟨r - 1, hrlt⟩).1 := by
    intro j hj hjr
    have hvlt := strictSorted_getD hs j (r - 1) hjr (by omega)
    rw [List.getD_eq_getElem _ _ (by omega), List.getD_eq_getElem _ _ (by omega)]
      at hvlt
    simp only [List.getElem_map] at hvlt
    have := vne_of_vlt hvlt
    simpa [List.get_eq_getElem] using this
  have hfind := find_eq_get t (r - 1) hrlt hdis
  show (match t.find? (fun e => decide (e.1 = (t.get ⟨r - 1, hrlt⟩).1)) with
      | none => (Except.error MxError.keyError :
          Except MxError (Option MxCompatibility × Table))
      | some e => Except.ok (some e.2, t)) =
    Except.ok (some (t.get ⟨r - 1, hrlt⟩).2, t)
  rw [hfind]

theorem getMx_at_index (t : Table) (v : VersionSpec) (i : Nat)
    (hne : t ≠ []) (hs : strictSorted (t.map Prod.fst) = true)
    (hi : i < t.length)
    (hlow : vle ((t.map Prod.fst).getD i (ver [])) v = true)
    (hhigh : i + 1 = t.length ∨
      vlt v ((t.map Prod.fst).getD (i + 1) (ver [])) = true) :
    getMxCompatibilityS v t = .ok (some (t.get ⟨i, hi⟩).2, t) := by
  have hlen : (t.map Prod.fst).length = t.length := List.length_map t Prod.fst
  have hnotlt : vlt v ((t.map Prod.fst).getD i (ver [])) = false :=
    vle_iff_not_vlt.mp hlow
  have h0 : vlt v ((t.map Prod.fst).getD 0 (ver [])) = false := by
    by_contra hc
    rw [Bool.not_eq_false] at hc
    have := mono_of_sorted hs v 0 i (by omega) (by omega) hc
    rw [hnotlt] at this
    exact absurd this (by decide)
  obtain ⟨hr1, hrle, hrlow, hrhigh, hrlt, hres⟩ := getMx_char t v hne hs h0
  have hri : bisectRight (t.map Prod.fst) v = i + 1 := by
    by_contra hc
    rcases Nat.lt_or_ge (bisectRight (t.map Prod.fst) v) (i + 1) with hlt | hge
    · have := hrhigh i (by omega) hi
      rw [hnotlt] at this
      exact absurd this (by decide)
    · have hlt2 : i + 1 < bisectRight (t.map Prod.fst) v := by omega
      have hfalse := hrlow (i + 1) hlt2
      rcases hhigh with he | hv
      · omega
      · rw [hfalse] at hv
        exact absurd hv (by decide)
  have hfin : (⟨bisectRight (List.map Prod.fst t) v - 1, hrlt⟩ : Fin t.length) =
      ⟨i, hi⟩ := Fin.ext (by
        show bisectRight (List.map Prod.fst t) v - 1 = i
        omega)
  rw [hfin] at hres
  exact hres

theorem chainVersions_cons_object (rest : List PyClass) :
    chainVersions (.object :: rest) = chainVersions rest := rfl

theorem chainVersions_cons_compat (p : MxCompatibility) (rest : List PyClass) :
    chainVersions (.compat p :: rest) = p.version :: chainVersions rest := rfl

theorem strictSorted_cons_cons (a b : VersionSpec) (l : List VersionSpec) :
    strictSorted (a :: b :: l) = (vlt a b && strictSorted (b :: l)) := rfl

theorem build_keys : ∀ (cs : List PyClass) (prev : Option VersionSpec) (t : Table),
    buildVersionsMap cs prev = .ok t →
    t.map Prod.fst = chainVersions cs ∧
    strictSorted (prev.toList ++ t.map Prod.fst) = true := by
  intro cs
  induction cs with
  | nil =>
    intro prev t h
    injection h with h2
    subst h2
    refine ⟨by simp [chainVersions], ?_⟩
    cases prev <;> rfl
  | cons c rest ih =>
    intro prev t h
    cases c with
    | object =>
      have hrec := ih prev t h
      rw [chainVersions_cons_object]
      exact hrec
    | compat p =>
      cases prev with
      | none =>
        obtain ⟨t', hok, hteq⟩ := exceptMap_ok h
        obtain ⟨hkeys, hsorted⟩ := ih (some p.version) t' hok
        subst hteq
        rw [chainVersions_cons_compat]
        constructor
        · rw [List.map_cons, hkeys]
        · simpa using hsorted
      | some pv =>
        by_cases hv : vlt pv p.version = true
        · rw [show buildVersionsMap (.compat p :: rest) (some pv) =
            if vlt pv p.version then
              (buildVersionsMap rest (some p.version)).map
                (fun t => (p.version, p) :: t)
            else .error (.nonMonotonicVersion pv p.version) from rfl,
            if_pos hv] at h
          obtain ⟨t', hok, hteq⟩ := exceptMap_ok h
          obtain ⟨hkeys, hsorted⟩ := ih (some p.version) t' hok
          subst hteq
          rw [chainVersions_cons_compat]
          have hsorted' : strictSorted (p.version :: t'.map Prod.fst) = true := by
            simpa using hsorted
          constructor
          · rw [List.map_cons, hkeys]
          · show strictSorted (pv :: p.version :: t'.map Prod.fst) = true
            rw [strictSorted_cons_cons, hv, hsorted']
            rfl
        · rw [show buildVersionsMap (.compat p :: rest) (some pv) =
            if vlt pv p.version then
              (buildVersionsMap rest (some p.version)).map
                (fun t => (p.version, p) :: t)
            else .error (.nonMonotonicVersion pv p.version) from rfl,
            if_neg hv] at h
          exact Except.noConfusion h

theorem build_fail_aux : ∀ (cs : List PyClass) (pv : VersionSpec),
    strictSorted (pv :: chainVersions cs) = false →
    ∃ a b, buildVersionsMap cs (some pv) = .error (.nonMonotonicVersion a b) ∧
      vlt a b = false ∧
      (a, b) ∈ (pv :: chainVersions cs).zip (chainVersions cs) := by
  intro cs
  induction cs with
  | nil =>
    intro pv h
    rw [show strictSorted (pv :: chainVersions []) = true from rfl] at h
    exact absurd h (by decide)
  | cons c rest ih =>
    intro pv h
    cases c with
    | object =>
      rw [chainVersions_cons_object] at h ⊢
      exact ih pv h
    | compat p =>
      rw [chainVersions_cons_compat] at h ⊢
      by_cases hv : vlt pv p.version = true
      · have h2 : strictSorted (p.version :: chainVersions rest) = false := by
          rw [strictSorted_cons_cons, hv] at h
          simpa using h
        obtain ⟨a, b, herr, hab, hmem⟩ := ih p.version h2
        refine ⟨a, b, ?_, hab, ?_⟩
        · rw [show buildVersionsMap (.compat p :: rest) (some pv) =
            if vlt pv p.version then
              (buildVersionsMap rest (some p.version)).map
                (fun t => (p.version, p) :: t)
            else .error (.nonMonotonicVersion pv p.version) from rfl,
            if_pos hv, herr]
          rfl
        · rw [List.zip_cons_cons]
          exact List.mem_cons_of_mem _ hmem
      · have hvf : vlt pv p.version = false := Bool.not_eq_true _ ▸ hv
        refine ⟨pv, p.version, ?_, hvf, ?_⟩
        · rw [show buildVersionsMap (.compat p :: rest) (some pv) =
            if vlt pv p.version then
              (buildVersionsMap rest (some p.version)).map
                (fun t => (p.version, p) :: t)
            else .error (.nonMonotonicVersion pv p.version) from rfl,
            if_neg hv]
        · rw [List.zip_cons_cons]
          exact List.mem_cons_self _ _

theorem build_fail : ∀ (cs : List PyClass),
    strictSorted (chainVersions cs) = false →
    ∃ a b, buildVersionsMap cs none = .error (.nonMonotonicVersion a b) ∧
      vlt a b = false ∧
      (a, b) ∈ (chainVersions cs).zip (chainVersions cs).tail := by
  intro cs
  induction cs with
  | nil =>
    intro h
    rw [show strictSorted (chainVersions []) = true from rfl] at h
    exact absurd h (by decide)
  | cons c rest ih =>
    intro h
    cases c with
    | object =>
      rw [chainVersions_cons_object] at h ⊢
      exact ih h
    | compat p =>
      rw [chainVersions_cons_compat] at h ⊢
      obtain ⟨a, b, herr, hab, hmem⟩ := build_fail_aux rest p.version h
      refine ⟨a, b, ?_, hab, ?_⟩
      · show (buildVersionsMap rest (some p.version)).map
          (fun t => (p.version, p) :: t) = _
        rw [herr]
        rfl
      · simpa using hmem

theorem hasBranch_fails_aux : ∀ (n : Nat) (t : ClassTree), sizeOf t < n →
    HasBranch t → ∃ e, flattenClassTree t = .error e := by
  intro n
  induction n with
  | zero => intro t h; omega
  | succ n ih =>
    intro t hsize hb
    rcases t with _ | ⟨c, _ | ⟨c2, rest2⟩ | ⟨s2, rest2⟩⟩ | ⟨s, rest⟩
    · cases hb with
      | here _ h2 => exact absurd h2 (by simp [clsCount])
    · cases hb with
      | here _ h2 => exact absurd h2 (by simp [clsCount])
      | inTailCls _ _ hb' =>
        cases hb' with
        | here _ h2 => exact absurd h2 (by simp [clsCount])
    · cases rest2 with
      | nil => exact ⟨.assertRestIsList, rfl⟩
      | consCls c3 rest3 => exact ⟨.assertTreeLen, rfl⟩
      | consSub s3 rest3 => exact ⟨.assertTreeLen, rfl⟩
    · cases rest2 with
      | nil =>
        have hbs : HasBranch s2 := by
          cases hb with
          | here _ h2 => exact absurd h2 (by simp [clsCount])
          | inTailCls _ _ hb' =>
            cases hb' with
            | here _ h2 => exact absurd h2 (by simp [clsCount])
            | inSub _ _ hb'' => exact hb''
            | inTailSub _ _ hb''' =>
              cases hb''' with
              | here _ h2 => exact absurd h2 (by simp [clsCount])
        have hsz : sizeOf s2 < n := by
          have h1 : sizeOf (ClassTree.consCls c (.consSub s2 .nil)) =
              1 + sizeOf c + (1 + sizeOf s2 + sizeOf ClassTree.nil) := by
            simp
          omega
        obtain ⟨e, he⟩ := ih s2 hsz hbs
        refine ⟨e, ?_⟩
        show (flattenClassTree s2).map (fun l => c :: l) = .error e
        rw [he]
        rfl
      | consCls c3 rest3 => exact ⟨.assertTreeLen, rfl⟩
      | consSub s3 rest3 => exact ⟨.assertTreeLen, rfl⟩
    · exact ⟨.assertRootIsType, rfl⟩

theorem hasBranch_fails {t : ClassTree} (hb : HasBranch t) :
    ∃ e, flattenClassTree t = .error e :=
  hasBranch_fails_aux (sizeOf t + 1) t (by omega) hb

theorem getMx_step (v : VersionSpec) (t : Table) (minV : VersionSpec) (m2 : Table)
    (h : minVersionS t = .ok (minV, m2)) :
    getMxCompatibilityS v t =
      if vlt v minV then .ok (none, m2)
      else
        match pyIndex (m2.map Prod.fst)
            ((bisectRight (m2.map Prod.fst) v : Int) - 1) with
        | none => .error .indexError
        | some k =>
          match m2.find? (fun e => decide (e.1 = k)) with
          | none => .error .keyError
          | some e => .ok (some e.2, m2) := by
  unfold getMxCompatibilityS
  rw [h]

theorem getMx_nil (v : VersionSpec) :
    getMxCompatibilityS v [] = getMxCompatibilityS v theTable := by
  have hm1 : minVersionS [] = .ok (ver [5, 0, 0], theTable) := rfl
  have hm2 : minVersionS theTable = .ok (ver [5, 0, 0], theTable) := rfl
  unfold getMxCompatibilityS
  rw [hm1, hm2]

/-- C1: for every query version at least the smallest chain version, the
resolver returns the profile of the greatest chain version that is less than
or equal to the query: whenever chain version `i` is `≤ v` and either `i` is
the last entry or `v` is strictly below chain version `i + 1`,
`getMxCompatibility(v)` returns exactly the profile declared at entry `i`
(in particular `v` equal to a chain version resolves to that version's
profile). -/
theorem c1_resolver_rightmost (v : VersionSpec) (i : Nat)
    (hi : i < theTable.length)
    (hlow : vle (theKeys.getD i (ver [])) v = true)
    (hhigh : i + 1 = theTable.length ∨
      vlt v (theKeys.getD (i + 1) (ver [])) = true) :
    getMxCompatibilityS v [] = .ok (some (theTable.get ⟨i, hi⟩).2, theTable) := by
  rw [getMx_nil]
  exact getMx_at_index theTable v i (List.cons_ne_nil _ _) (by decide) hi
    hlow hhigh

theorem c1_resolver_rightmost_witness :
    getMxCompatibilityS (ver [5, 0, 5]) [] =
      .ok (some (theTable.get ⟨0, by decide⟩).2, theTable) :=
  c1_resolver_rightmost (ver [5, 0, 5]) 0 (by decide) (by decide)
    (Or.inr (by decide))

/-- C2: resolving a version strictly below the smallest chain version 5.0.0
fails with an `UnsupportedVersion` error carrying both the requested version
and the minimum supported version (the reporting wrapper is spec-modelled;
`getMxCompatibility` itself returns the `None` sentinel). -/
theorem c2_unsupported_version (v : VersionSpec)
    (h : vlt v (ver [5, 0, 0]) = true) :
    resolveCompat v [] = .error (.unsupportedVersion v (ver [5, 0, 0])) := by
  have hg : getMxCompatibilityS v [] = .ok (none, theTable) := by
    rw [getMx_step v [] (ver [5, 0, 0]) theTable rfl, if_pos h]
  unfold resolveCompat
  rw [hg]
  rfl

theorem c2_unsupported_version_witness :
    resolveCompat (ver [1, 0, 0]) [] =
      .error (.unsupportedVersion (ver [1, 0, 0]) (ver [5, 0, 0])) :=
  c2_unsupported_version (ver [1, 0, 0]) (by decide)

/-- C3: building the table from a class sequence whose declared versions are
not strictly increasing fails with a `NonMonotonicVersion` error that carries
the two offending versions — an adjacent pair of declared versions of which
the second is not strictly greater than the first. -/
theorem c3_non_monotonic_fails (cs : List PyClass)
    (h : strictSorted (chainVersions cs) = false) :
    ∃ a b, buildVersionsMap cs none = .error (.nonMonotonicVersion a b) ∧
      vlt a b = false ∧
      (a, b) ∈ (chainVersions cs).zip (chainVersions cs).tail :=
  build_fail cs h

theorem c3_non_monotonic_fails_witness :
    ∃ a b, buildVersionsMap
        [.compat mxCompatibility500, .compat mxCompatibility500] none =
        .error (.nonMonotonicVersion a b) ∧
      vlt a b = false ∧
      (a, b) ∈ (chainVersions
          [.compat mxCompatibility500, .compat mxCompatibility500]).zip
        (chainVersions
          [.compat mxCompatibility500, .compat mxCompatibility500]).tail :=
  c3_non_monotonic_fails _ (by decide)

/-- C4: the successful build yields `theTable`, whose key sequence is strictly
ascending and equals the declared chain order, and the subsequent operations
`minVersion` and `getMxCompatibility` return the table unchanged. -/
theorem c4_table_invariant :
    ensureCompatLoaded [] = .ok theTable ∧
    strictSorted theKeys = true ∧
    theKeys = chainVersions allMxClasses ∧
    minVersionS theTable = .ok (ver [5, 0, 0], theTable) ∧
    (∀ v : VersionSpec, ∃ r, getMxCompatibilityS v theTable = .ok (r, theTable)) := by
  refine ⟨rfl, by decide, by decide, rfl, ?_⟩
  intro v
  by_cases hv : vlt v (ver [5, 0, 0]) = true
  · refine ⟨none, ?_⟩
    rw [getMx_step v theTable (ver [5, 0, 0]) theTable rfl, if_pos hv]
  · have hvf : vlt v (ver [5, 0, 0]) = false := Bool.not_eq_true _ ▸ hv
    have h0 : vlt v ((theTable.map Prod.fst).getD 0 (ver [])) = false := hvf
    obtain ⟨_, _, _, _, hrlt, hres⟩ :=
      getMx_char theTable v (List.cons_ne_nil _ _) (by decide) h0
    exact ⟨some (theTable.get ⟨_, hrlt⟩).2, hres⟩

/-- C5: the table build is idempotent pure memoization: the first call builds
`theTable`, any further call returns the cached table unchanged, and two
sequential `minVersion` calls agree on structurally equal tables. -/
theorem c5_build_idempotent :
    ensureCompatLoaded [] = .ok theTable ∧
    ensureCompatLoaded theTable = .ok theTable ∧
    minVersionS [] = .ok (ver [5, 0, 0], theTable) ∧
    minVersionS theTable = .ok (ver [5, 0, 0], theTable) :=
  ⟨rfl, rfl, rfl, rfl⟩

/-- C6: for every chain whose build succeeds with a non-empty table,
`minVersion()` returns the smallest version among all chain entries. -/
theorem c6_min_version_smallest (cs : List PyClass) (t : Table)
    (hb : buildVersionsMap cs none = .ok t) (hne : t ≠ []) :
    ∃ v0, minVersionS t = .ok (v0, t) ∧ ∀ e ∈ t, vle v0 e.1 = true := by
  obtain ⟨hkeys, hsorted⟩ := build_keys cs none t hb
  have hsorted' : strictSorted (t.map Prod.fst) = true := by simpa using hsorted
  obtain ⟨e0, he0, hmin⟩ := minVersionS_of_ne_nil hne
  refine ⟨e0.1, hmin, ?_⟩
  obtain ⟨hd, tl, rfl⟩ := List.exists_cons_of_ne_nil hne
  have he0hd : hd = e0 := by
    simpa using he0
  subst he0hd
  intro e he
  rcases List.mem_cons.mp he with hehd | hetl
  · subst hehd
    exact vle_refl _
  · have hsorted2 : strictSorted (hd.1 :: tl.map Prod.fst) = true := by
      simpa using hsorted'
    have hmem : e.1 ∈ tl.map Prod.fst := List.mem_map_of_mem Prod.fst hetl
    exact vle_of_vlt (strictSorted_head hsorted2 e.1 hmem)

theorem c6_min_version_smallest_witness :
    ∃ v0, minVersionS theTable = .ok (v0, theTable) ∧
      ∀ e ∈ theTable, vle v0 e.1 = true :=
  c6_min_version_smallest allMxClasses theTable rfl (List.cons_ne_nil _ _)

/-- C7: flag inheritance along the chain: every query version in the interval
[5.2.1, 5.2.2) resolves to the 5.2.1 profile, whose `supportsRepositories` is
`true` (set at 5.2.1) while `licenseAttribute` is "licence", inherited from
the 5.0.0 root because neither 5.2.0 nor 5.2.1 overrides it; the override only
happens at 5.2.2. -/
theorem c7_flag_inheritance (v : VersionSpec)
    (hlow : vle (ver [5, 2, 1]) v = true)
    (hhigh : vlt v (ver [5, 2, 2]) = true) :
    ∃ p, getMxCompatibilityS v [] = .ok (some p, theTable) ∧
      p.supportsRepositories = true ∧
      p.licenseAttribute = "licence" ∧
      mxCompatibility521.supportsRepositories = true ∧
      mxCompatibility520.supportsRepositories = false ∧
      mxCompatibility521.licenseAttribute = mxCompatibility500.licenseAttribute ∧
      mxCompatibility522.licenseAttribute = "license" := by
  refine ⟨mxCompatibility521, ?_, rfl, rfl, rfl, rfl, rfl, rfl⟩
  rw [getMx_nil]
  exact getMx_at_index theTable v 2 (List.cons_ne_nil _ _) (by decide)
    (by decide) hlow (Or.inr hhigh)

theorem c7_flag_inheritance_witness :
    ∃ p, getMxCompatibilityS (ver [5, 2, 1]) [] = .ok (some p, theTable) ∧
      p.supportsRepositories = true ∧
      p.licenseAttribute = "licence" ∧
      mxCompatibility521.supportsRepositories = true ∧
      mxCompatibility520.supportsRepositories = false ∧
      mxCompatibility521.licenseAttribute = mxCompatibility500.licenseAttribute ∧
      mxCompatibility522.licenseAttribute = "license" :=
  c7_flag_inheritance (ver [5, 2, 1]) (by decide) (by decide)

/-- C9: for a non-empty ascending table and a query at least the smallest key,
the lookup index `bisect_right(keys, version) - 1` is within bounds — the
bisection result is between 1 and the table length — so `getMxCompatibility`
neither raises an out-of-range access nor returns the `None` sentinel. -/
theorem c9_lookup_within_bounds (t : Table) (v : VersionSpec) (hne : t ≠ [])
    (hs : strictSorted (t.map Prod.fst) = true)
    (hmin : vlt v ((t.map Prod.fst).getD 0 (ver [])) = false) :
    1 ≤ bisectRight (t.map Prod.fst) v ∧
    bisectRight (t.map Prod.fst) v ≤ t.length ∧
    ∃ p, getMxCompatibilityS v t = .ok (some p, t) := by
  obtain ⟨hr1, hrle, _, _, hrlt, hres⟩ := getMx_char t v hne hs hmin
  exact ⟨hr1, hrle, ⟨(t.get ⟨_, hrlt⟩).2, hres⟩⟩

theorem c9_lookup_within_bounds_witness :
    1 ≤ bisectRight (theTable.map Prod.fst) (ver [5, 0, 0]) ∧
    bisectRight (theTable.map Prod.fst) (ver [5, 0, 0]) ≤ theTable.length ∧
    ∃ p, getMxCompatibilityS (ver [5, 0, 0]) theTable =
      .ok (some p, theTable) :=
  c9_lookup_within_bounds theTable (ver [5, 0, 0]) (List.cons_ne_nil _ _)
    (by decide) (by decide)

/-- C10: key-value consistency of the built table: every entry's profile
declares exactly the version it is keyed by; consequently the profile resolved
for a supported query has version at most the query, and the root entry makes
`minVersion()` equal 5.0.0. -/
theorem c10_key_value_consistency (q : VersionSpec)
    (h : vlt q (ver [5, 0, 0]) = false) :
    (∀ e ∈ theTable, e.2.version = e.1) ∧
    minVersionS [] = .ok (ver [5, 0, 0], theTable) ∧
    ∃ p, getMxCompatibilityS q [] = .ok (some p, theTable) ∧
      vle p.version q = true := by
  have hkv : ∀ e ∈ theTable, e.2.version = e.1 := by decide
  refine ⟨hkv, rfl, ?_⟩
  have h0 : vlt q ((theTable.map Prod.fst).getD 0 (ver [])) = false := h
  obtain ⟨hr1, hrle, hrlow, _, hrlt, hres⟩ :=
    getMx_char theTable q (List.cons_ne_nil _ _) (by decide) h0
  refine ⟨(theTable.get ⟨_, hrlt⟩).2, ?_, ?_⟩
  · rw [getMx_nil]
    exact hres
  · have hklow := hrlow (bisectRight (theTable.map Prod.fst) q - 1) (by omega)
    have hgetd : (theTable.map Prod.fst).getD
        (bisectRight (theTable.map Prod.fst) q - 1) (ver []) =
        (theTable.get ⟨bisectRight (theTable.map Prod.fst) q - 1, hrlt⟩).1 := by
      rw [List.getD_eq_getElem _ _ (by
        rw [List.length_map]
        omega)]
      simp [List.getElem_map, List.get_eq_getElem]
    rw [hgetd] at hklow
    have hver : (theTable.get ⟨bisectRight (theTable.map Prod.fst) q - 1,
        hrlt⟩).2.version =
        (theTable.get ⟨bisectRight (theTable.map Prod.fst) q - 1, hrlt⟩).1 :=
      hkv _ (List.get_mem theTable _ hrlt)
    rw [hver]
    exact vle_iff_not_vlt.mpr hklow

theorem c10_key_value_consistency_witness :
    (∀ e ∈ theTable, e.2.version = e.1) ∧
    minVersionS [] = .ok (ver [5, 0, 0], theTable) ∧
    ∃ p, getMxCompatibilityS (ver [9, 0, 0]) [] = .ok (some p, theTable) ∧
      vle p.version (ver [9, 0, 0]) = true :=
  c10_key_value_consistency (ver [9, 0, 0]) (by decide)

/-- C8: flattening a class-hierarchy declaration in which some node has more
than one direct child — some level of the `getclasstree`-shaped input holds
two or more class entries — always fails (the `AmbiguousChain` condition:
one of the assertions of `flattenClassTree` trips). -/
theorem c8_branching_ancestry_fails (t : ClassTree) (hb : HasBranch t) :
    ∃ e, flattenClassTree t = .error e :=
  hasBranch_fails hb

theorem c8_branching_ancestry_fails_witness :
    ∃ e, flattenClassTree
      (.consCls (.compat mxCompatibility500)
        (.consSub
          (.consCls (.compat mxCompatibility520)
            (.consCls (.compat mxCompatibility521) .nil)) .nil)) = .error e :=
  c8_branching_ancestry_fails _
    (HasBranch.inTailCls _ _ (HasBranch.inSub _ _ (HasBranch.here _ (by decide))))

end MxCompat
